import Mathlib

/-!
Verification of the audio preprocessing tutorial
(`beginner_source/audio_preprocessing_tutorial.py`) against its design
specification.

The script under verification is a thin orchestration over an external
audio-transform library: it loads a waveform, applies spectral, resampling
and mu-law transforms, and computes a round-trip fidelity metric.  The data
model below embeds the spec's `AudioBuffer` / `Transform` / `Pipeline` /
`FidelityReport` design.  Code present in the script itself (the `normalize`
helper, the median-relative-difference formula, the Kaldi parameter set, the
straight-line variable flow of the session) is translated directly from the
source; the transform implementations live in the external library and are
modelled from the spec, each such definition carrying a doc comment that says
so.  Samples are embedded as exact rationals; the sample rate as a rational.
-/

namespace AudioTutorial

/-- An audio buffer: rectangular channel-major sample data (channels × frames)
plus a sample rate, as in spec §3 (`AudioBuffer`). -/
structure AudioBuffer where
  samples : List (List ℚ)
  sample_rate : ℚ
deriving Repr, DecidableEq

/-- Number of channels of a buffer (outer dimension). -/
def AudioBuffer.channels (b : AudioBuffer) : ℕ := b.samples.length

/-- Frame count of a buffer (length of the first channel; for well-formed
buffers every channel has this length). -/
def AudioBuffer.frames (b : AudioBuffer) : ℕ := (b.samples.headD []).length

/-- Well-formedness invariant from spec §3: every channel has identical
frame count. -/
def wf (b : AudioBuffer) : Prop := ∀ ch ∈ b.samples, ch.length = b.frames

/-- The error kinds of spec §7. -/
inductive Err where
  | DecodeError
  | ConfigMismatchError
  | ShapeMismatchError
deriving Repr, DecidableEq

/-- A transform maps a buffer to a new buffer or fails with an error
(spec §4.2: `apply(buffer) -> buffer'`, pure). -/
abbrev Transform : Type := AudioBuffer → Except Err AudioBuffer

/-- The `normalize` helper, translated from the source
(`audio_preprocessing_tutorial.py` lines 153–156): subtract the mean, then
divide by the maximum absolute value of the mean-subtracted data.  `mean` is
sum over length. -/
def mean (l : List ℚ) : ℚ := l.sum / l.length

/-- Maximum absolute value of a list of samples (`tensor.abs().max()`); the
empty tensor gives 0. -/
def maxAbs (l : List ℚ) : ℚ := l.foldr (fun x m => max |x| m) 0

/-- The body of `normalize` from the source, lines 153–156:
`tensor_minusmean = tensor - tensor.mean()` then
`tensor_minusmean / tensor_minusmean.abs().max()`.  The division is
unguarded, exactly as in the source. -/
def normalize (l : List ℚ) : List ℚ :=
  let tensor_minusmean := l.map (fun x => x - mean l)
  tensor_minusmean.map (fun x => x / maxAbs tensor_minusmean)

theorem maxAbs_cons (x : ℚ) (l : List ℚ) : maxAbs (x :: l) = max |x| (maxAbs l) := rfl

theorem maxAbs_nonneg (l : List ℚ) : 0 ≤ maxAbs l := by
  induction l with
  | nil => simp [maxAbs]
  | cons x xs ih => rw [maxAbs_cons]; exact le_max_of_le_right ih

theorem le_maxAbs {l : List ℚ} {x : ℚ} (hx : x ∈ l) : |x| ≤ maxAbs l := by
  induction l with
  | nil => cases hx
  | cons y ys ih =>
    rcases List.mem_cons.mp hx with h | h
    · subst h; rw [maxAbs_cons]; exact le_max_left _ _
    · rw [maxAbs_cons]; exact le_max_of_le_right (ih h)

theorem maxAbs_mem_of_ne_nil {l : List ℚ} (h : l ≠ []) : ∃ x ∈ l, maxAbs l = |x| := by
  induction l with
  | nil => exact absurd rfl h
  | cons y ys ih =>
    by_cases hys : ys = []
    · subst hys
      exact ⟨y, List.mem_cons_self y [], by simp [maxAbs, abs_nonneg]⟩
    · rcases ih hys with ⟨x, hxmem, hx⟩
      rcases le_total (maxAbs ys) |y| with hle | hle
      · refine ⟨y, List.mem_cons_self y ys, ?_⟩
        rw [maxAbs_cons, max_eq_left hle]
      · refine ⟨x, List.mem_cons_of_mem y hxmem, ?_⟩
        rw [maxAbs_cons, max_eq_right hle, hx]

theorem maxAbs_map_div {l : List ℚ} {k : ℚ} (hk : 0 < k) :
    maxAbs (l.map (fun x => x / k)) = maxAbs l / k := by
  induction l with
  | nil => simp [maxAbs]
  | cons x xs ih =>
    simp only [List.map_cons, maxAbs_cons, ih, abs_div, abs_of_pos hk]
    exact max_div_div_right hk.le |x| (maxAbs xs)

theorem maxAbs_zero_map (l : List ℚ) : maxAbs (l.map (fun _ => (0 : ℚ))) = 0 := by
  induction l with
  | nil => rfl
  | cons y ys ih => rw [List.map_cons, maxAbs_cons, ih]; simp

theorem sum_of_const {l : List ℚ} {c : ℚ} (h : ∀ x ∈ l, x = c) :
    l.sum = l.length * c := by
  induction l with
  | nil => simp
  | cons y ys ih =>
    have hy : y = c := h y (List.mem_cons_self y ys)
    have ihs := ih (fun x hx => h x (List.mem_cons_of_mem y hx))
    simp [hy, ihs]; ring

theorem mean_of_const {l : List ℚ} {c : ℚ} (hne : l ≠ []) (h : ∀ x ∈ l, x = c) :
    mean l = c := by
  have hpos : 0 < l.length := List.length_pos.mpr hne
  have hlen : (l.length : ℚ) ≠ 0 := Nat.cast_ne_zero.mpr hpos.ne'
  rw [mean, sum_of_const h, mul_comm, mul_div_assoc, div_self hlen, mul_one]

/-- CLAIM C10: the `normalize` helper returns
`(tensor - mean(tensor)) / max|tensor - mean(tensor)|`.  For every non-constant
input every output value lies in [-1, 1] and the maximum absolute output value
is exactly 1; for every nonempty constant input (all zeros included) the
divisor `max|tensor - mean(tensor)|` is exactly 0 and the code divides by it
without a guard. -/
theorem C10_normalize_range_and_unguarded_divisor :
    (∀ l : List ℚ, (∃ a ∈ l, ∃ b ∈ l, a ≠ b) →
      (∀ y ∈ normalize l, -1 ≤ y ∧ y ≤ 1) ∧ maxAbs (normalize l) = 1) ∧
    (∀ (l : List ℚ) (c : ℚ), l ≠ [] → (∀ x ∈ l, x = c) →
      maxAbs (l.map (fun x => x - mean l)) = 0 ∧
      normalize l = l.map (fun x => (x - mean l) / 0)) := by
  constructor
  · intro l hnc
    obtain ⟨a, ha, b, hb, hab⟩ := hnc
    set m := mean l with hm
    set cl := l.map (fun x => x - m) with hcl
    have hex : ∃ x ∈ l, x - m ≠ 0 := by
      by_contra hall
      push_neg at hall
      have h1 : a - m = 0 := hall a ha
      have h2 : b - m = 0 := hall b hb
      have hco : a = b := by linarith
      exact hab hco
    obtain ⟨x, hx, hxne⟩ := hex
    have hxmem : x - m ∈ cl := List.mem_map_of_mem _ hx
    have hpos : 0 < maxAbs cl :=
      lt_of_lt_of_le (abs_pos.mpr hxne) (le_maxAbs hxmem)
    have hnorm : normalize l = cl.map (fun z => z / maxAbs cl) := rfl
    constructor
    · intro y hy
      rw [hnorm] at hy
      obtain ⟨z, hz, hzy⟩ := List.mem_map.mp hy
      have hzle : |z| ≤ maxAbs cl := le_maxAbs hz
      have : |y| ≤ 1 := by
        rw [← hzy, abs_div, abs_of_pos hpos]
        exact (div_le_one hpos).mpr hzle
      exact abs_le.mp this
    · rw [hnorm, maxAbs_map_div hpos, div_self hpos.ne']
  · intro l c hne hconst
    have hm : mean l = c := mean_of_const hne hconst
    have hz : ∀ x ∈ l, x - mean l = 0 := fun x hx => by
      rw [hm, hconst x hx, sub_self]
    have hmap : l.map (fun x => x - mean l) = l.map (fun _ => (0 : ℚ)) :=
      List.map_congr_left hz
    have hmax : maxAbs (l.map (fun x => x - mean l)) = 0 := by
      rw [hmap, maxAbs_zero_map]
    refine ⟨hmax, ?_⟩
    show (l.map (fun x => x - mean l)).map
        (fun x => x / maxAbs (l.map (fun y => y - mean l))) = _
    rw [hmax, List.map_map]
    rfl

/-- Witness for C10 at concrete inputs: the two-element list `[0, 1]` is
non-constant and normalizes into [-1,1] with maximum absolute value 1, and the
constant list `[5, 5]` has divisor 0. -/
theorem C10_normalize_range_and_unguarded_divisor_witness :
    ((∀ y ∈ normalize [(0 : ℚ), 1], -1 ≤ y ∧ y ≤ 1) ∧
      maxAbs (normalize [(0 : ℚ), 1]) = 1) ∧
    maxAbs (([(5 : ℚ), 5]).map (fun x => x - mean [(5 : ℚ), 5])) = 0 := by
  refine ⟨C10_normalize_range_and_unguarded_divisor.1 [(0 : ℚ), 1]
    ⟨0, by simp, 1, by simp, by norm_num⟩, ?_⟩
  exact (C10_normalize_range_and_unguarded_divisor.2 [(5 : ℚ), 5] 5 (by simp)
    (by intro x hx; simpa using hx)).1

/-- Insertion into a sorted list, used to define the median. -/
def insertSorted (x : ℚ) : List ℚ → List ℚ
  | [] => [x]
  | y :: ys => if x ≤ y then x :: y :: ys else y :: insertSorted x ys

/-- Insertion sort of the sample data (the model of sorting used by the
median). -/
def sortSamples : List ℚ → List ℚ
  | [] => []
  | x :: xs => insertSorted x (sortSamples xs)

/-- The median as torch's `.median()` computes it: the lower middle element of
the sorted data; the median of an empty list is 0. -/
def median (l : List ℚ) : ℚ := (sortSamples l).getD ((l.length - 1) / 2) 0

/-- Elementwise relative difference from source line 192:
`(waveform - reconstructed).abs() / waveform.abs()`.  The division is
unguarded against a zero original sample, exactly as in the source. -/
def relDiff (o r : ℚ) : ℚ := |o - r| / |o|

/-- Modelled from the spec: `FidelityReport.compare` (spec §4.4) is realised
in the source only as the inline expression at line 192,
`((waveform-reconstructed).abs() / waveform.abs()).median()`; the elementwise
formula and the median are taken from that line, the `ShapeMismatchError` on a
channel-count or frame-count mismatch from spec §4.4/§7 (the external tensor
library performs that shape check). -/
def FidelityReport.compare (o r : AudioBuffer) : Except Err ℚ :=
  if o.channels = r.channels ∧ o.frames = r.frames then
    .ok (median ((List.zipWith (List.zipWith relDiff) o.samples r.samples).flatten))
  else .error .ShapeMismatchError

theorem insertSorted_perm (x : ℚ) (l : List ℚ) : List.Perm (insertSorted x l) (x :: l) := by
  induction l with
  | nil => rfl
  | cons y ys ih =>
    rw [insertSorted]
    by_cases h : x ≤ y
    · rw [if_pos h]
    · rw [if_neg h]
      exact (ih.cons y).trans (List.Perm.swap x y ys)

theorem sortSamples_perm (l : List ℚ) : List.Perm (sortSamples l) l := by
  induction l with
  | nil => rfl
  | cons x xs ih => exact (insertSorted_perm x (sortSamples xs)).trans (ih.cons x)

theorem median_mem {l : List ℚ} (h : l ≠ []) : median l ∈ l := by
  have hperm := sortSamples_perm l
  have hlen : (sortSamples l).length = l.length := hperm.length_eq
  have hpos : 0 < l.length := List.length_pos.mpr h
  have hidx : (l.length - 1) / 2 < (sortSamples l).length := by
    rw [hlen]
    exact lt_of_le_of_lt (Nat.div_le_self _ _) (Nat.sub_lt hpos one_pos)
  rw [median, List.getD_eq_getElem (sortSamples l) 0 hidx]
  exact hperm.mem_iff.mp (List.getElem_mem hidx)

theorem median_nil : median [] = 0 := rfl

/-- Nat version of the constant-sum identity, for frame counting. -/
theorem natSum_of_const {l : List ℕ} {c : ℕ} (h : ∀ x ∈ l, x = c) :
    l.sum = l.length * c := by
  induction l with
  | nil => simp
  | cons y ys ih =>
    have hy : y = c := h y (List.mem_cons_self y ys)
    have ihs := ih (fun x hx => h x (List.mem_cons_of_mem y hx))
    simp [hy, ihs]; ring

theorem flatten_length_of_wf {b : AudioBuffer} (h : wf b) :
    b.samples.flatten.length = b.channels * b.frames := by
  rw [List.length_flatten]
  have hconst : ∀ x ∈ List.map List.length b.samples, x = b.frames := by
    intro x hx
    obtain ⟨ch, hch, rfl⟩ := List.mem_map.mp hx
    exact h ch hch
  rw [natSum_of_const hconst, List.length_map]
  rfl

/-- Flattening a channelwise zip of rectangular data equals zipping the
flattened data: the comparison really ranges over all elements. -/
theorem flatten_zipWith_eq (f : ℚ → ℚ → ℚ) :
    ∀ {as bs : List (List ℚ)},
      List.Forall₂ (fun (a b : List ℚ) => a.length = b.length) as bs →
      (List.zipWith (List.zipWith f) as bs).flatten =
        List.zipWith f as.flatten bs.flatten := by
  intro as bs h
  induction h with
  | nil => rfl
  | @cons a b as' bs' hab htail ih =>
    rw [List.zipWith_cons_cons, List.flatten_cons, List.flatten_cons,
      List.flatten_cons, List.zipWith_append _ _ _ _ _ hab, ih]

theorem forall₂_length_of_wf {o r : AudioBuffer} (ho : wf o) (hr : wf r)
    (hch : o.channels = r.channels) (hf : o.frames = r.frames) :
    List.Forall₂ (fun (a b : List ℚ) => a.length = b.length) o.samples r.samples := by
  have key : ∀ (as bs : List (List ℚ)) (F : ℕ), as.length = bs.length →
      (∀ a ∈ as, a.length = F) → (∀ b ∈ bs, b.length = F) →
      List.Forall₂ (fun (a b : List ℚ) => a.length = b.length) as bs := by
    intro as
    induction as with
    | nil =>
      intro bs F hlen _ _
      cases bs with
      | nil => exact List.Forall₂.nil
      | cons b bs' => simp at hlen
    | cons a as' ih =>
      intro bs F hlen ha hb
      cases bs with
      | nil => simp at hlen
      | cons b bs' =>
        refine List.Forall₂.cons ?_ ?_
        · rw [ha a (List.mem_cons_self a as'), hb b (List.mem_cons_self b bs')]
        · exact ih bs' F (by simpa using hlen)
            (fun x hx => ha x (List.mem_cons_of_mem a hx))
            (fun x hx => hb x (List.mem_cons_of_mem b hx))
  refine key o.samples r.samples o.frames ?_ ho ?_
  · exact hch
  · intro x hx
    rw [hr x hx, hf]

/-- CLAIM C2: for buffers of equal channel-count and frame-count, the fidelity
comparison returns the median over all elements of `|original -
reconstructed| / |original|` (the element list has full length
channels × frames, so positions with a zero original sample are not excluded:
the division is unguarded); when channel-count or frame-count differ it fails
with `ShapeMismatchError`. -/
theorem C2_fidelity_compare_contract :
    ∀ o r : AudioBuffer, wf o → wf r →
      ((o.channels = r.channels ∧ o.frames = r.frames) →
        FidelityReport.compare o r =
          .ok (median (List.zipWith relDiff o.samples.flatten r.samples.flatten)) ∧
        (List.zipWith relDiff o.samples.flatten r.samples.flatten).length =
          o.channels * o.frames) ∧
      ((o.channels ≠ r.channels ∨ o.frames ≠ r.frames) →
        FidelityReport.compare o r = .error .ShapeMismatchError) := by
  intro o r ho hr
  constructor
  · rintro ⟨hch, hf⟩
    have hforall := forall₂_length_of_wf ho hr hch hf
    constructor
    · rw [FidelityReport.compare, if_pos ⟨hch, hf⟩, flatten_zipWith_eq relDiff hforall]
    · rw [List.length_zipWith, flatten_length_of_wf ho, flatten_length_of_wf hr,
        hch, hf, min_self]
  · intro hne
    rw [FidelityReport.compare, if_neg]
    intro hand
    rcases hne with h | h
    · exact h hand.1
    · exact h hand.2

/-- Witness for C2 at concrete buffers: equal 1×2 shapes give the median of
the elementwise relative differences; a 1×2 versus 1×1 shape mismatch gives
`ShapeMismatchError`. -/
theorem C2_fidelity_compare_contract_witness :
    FidelityReport.compare ⟨[[1, 2]], 8⟩ ⟨[[1, 1]], 8⟩ =
      .ok (median (List.zipWith relDiff [1, 2] [1, 1])) ∧
    FidelityReport.compare ⟨[[1, 2]], 8⟩ ⟨[[1]], 8⟩ = .error .ShapeMismatchError := by
  constructor
  · have h := (C2_fidelity_compare_contract ⟨[[1, 2]], 8⟩ ⟨[[1, 1]], 8⟩
      (by intro ch hch; simp at hch; simp [hch, AudioBuffer.frames])
      (by intro ch hch; simp at hch; simp [hch, AudioBuffer.frames])).1
      ⟨rfl, rfl⟩
    simpa using h.1
  · exact (C2_fidelity_compare_contract ⟨[[1, 2]], 8⟩ ⟨[[1]], 8⟩
      (by intro ch hch; simp at hch; simp [hch, AudioBuffer.frames])
      (by intro ch hch; simp at hch; simp [hch, AudioBuffer.frames])).2
      (Or.inr (by decide))

/-- Modelled from the spec: the mu-law companding pair (spec §4.2, glossary)
is delegated by the script to the external transform library and is not under
`src/`.  The spec fixes: the domain is [-1, 1]; encoding quantizes at a fixed
8-bit depth so that decoding approximately inverts encoding with a bounded,
generally non-zero reconstruction error (quantization loss); encoding of 0 is
well defined and the all-zero signal round-trips exactly.  The quantizer is
modelled as the symmetric mid-tread quantizer with 127 positive levels (8-bit
signed code); the logarithmic companding warp — an order-preserving bijection
of [-1, 1] fixing 0, applied before quantization and inverted after — is
numeric detail the spec delegates and no claim observes. -/
def muLawQuantize (x : ℚ) : ℤ := round (127 * x)

/-- Modelled from the spec: inverse of the mu-law quantizer (decoder side). -/
def muLawDequantize (k : ℤ) : ℚ := (k : ℚ) / 127

/-- Modelled from the spec: `MuLawEncoding` maps each sample to its integer
mu-law code (carried in the sample field of the output buffer, as the external
library carries the integer tensor). -/
def MuLawEncoding : Transform := fun b =>
  .ok { b with samples := b.samples.map (fun ch => ch.map (fun x => ((muLawQuantize x : ℤ) : ℚ))) }

/-- Modelled from the spec: `MuLawExpanding` decodes each integer code back
to a sample value. -/
def MuLawExpanding : Transform := fun b =>
  .ok { b with samples := b.samples.map (fun ch => ch.map (fun y => muLawDequantize (round y))) }

/-- The encode-then-decode composition from source lines 166–178. -/
def muLawRoundTrip (b : AudioBuffer) : Except Err AudioBuffer :=
  (MuLawEncoding b).bind MuLawExpanding

/-- Per-sample round trip: decode the code of a sample. -/
def rtSample (x : ℚ) : ℚ := muLawDequantize (muLawQuantize x)

/-- The buffer the mu-law round trip reconstructs. -/
def roundTripBuffer (b : AudioBuffer) : AudioBuffer :=
  { b with samples := b.samples.map (fun ch => ch.map rtSample) }

/-- Sample range precondition of mu-law encoding (spec §4.2). -/
def inRange (b : AudioBuffer) : Prop := ∀ ch ∈ b.samples, ∀ x ∈ ch, -1 ≤ x ∧ x ≤ 1

/-- A representative speech-like signal: one channel, mid-range alternating
samples, 44.1 kHz. -/
def repSignal : AudioBuffer := ⟨[[1/2, -(1/2), 1/2]], 44100⟩

theorem rtSample_zero : rtSample 0 = 0 := by
  rw [rtSample, muLawQuantize]
  norm_num [muLawDequantize]

theorem muLawRoundTrip_eq (b : AudioBuffer) :
    muLawRoundTrip b = .ok (roundTripBuffer b) := by
  have h : (b.samples.map (fun ch => ch.map (fun x => ((muLawQuantize x : ℤ) : ℚ)))).map
      (fun ch => ch.map (fun y => muLawDequantize (round y))) =
      b.samples.map (fun ch => ch.map rtSample) := by
    rw [List.map_map]
    apply List.map_congr_left
    intro ch _
    show (ch.map (fun x => ((muLawQuantize x : ℤ) : ℚ))).map
        (fun y => muLawDequantize (round y)) = ch.map rtSample
    rw [List.map_map]
    apply List.map_congr_left
    intro x _
    show muLawDequantize (round ((muLawQuantize x : ℤ) : ℚ)) = rtSample x
    rw [round_intCast]
    rfl
  show Except.ok _ = Except.ok (roundTripBuffer b)
  rw [roundTripBuffer]
  exact congrArg Except.ok (congrArg (fun s => AudioBuffer.mk s b.sample_rate) h)

/-- The quantization error never exceeds the magnitude of the sample: for
samples below half a quantization step the code is 0 and the error is the
sample itself; above that the error is at most half a step, which is at most
the sample. -/
theorem rtSample_abs_sub_le (x : ℚ) : |x - rtSample x| ≤ |x| := by
  by_cases hc : |x| < 1 / 254
  · have h1 : -(1/2) ≤ 127 * x := by
      rcases abs_lt.mp hc with ⟨hlo, _⟩
      nlinarith
    have h2 : 127 * x < 1/2 := by
      rcases abs_lt.mp hc with ⟨_, hhi⟩
      nlinarith
    have hz : muLawQuantize x = 0 := by
      rw [muLawQuantize]
      exact round_eq_zero_iff.mpr ⟨h1, h2⟩
    rw [rtSample, hz]
    simp [muLawDequantize]
  · push_neg at hc
    have key : x - rtSample x = (127 * x - ((round (127 * x) : ℤ) : ℚ)) / 127 := by
      rw [rtSample, muLawDequantize, muLawQuantize]
      ring
    have hround := abs_sub_round (127 * x)
    rw [key, abs_div, abs_of_pos (by norm_num : (0:ℚ) < 127)]
    calc |127 * x - ((round (127 * x) : ℤ) : ℚ)| / 127
        ≤ (1/2) / 127 :=
          (div_le_div_iff_of_pos_right (by norm_num : (0:ℚ) < 127)).mpr hround
      _ = 1 / 254 := by norm_num
      _ ≤ |x| := hc

theorem relDiff_rtSample_bounds (x : ℚ) :
    0 ≤ relDiff x (rtSample x) ∧ relDiff x (rtSample x) ≤ 1 := by
  refine ⟨div_nonneg (abs_nonneg _) (abs_nonneg _), ?_⟩
  by_cases hx : x = 0
  · subst hx
    rw [relDiff, rtSample_zero]
    norm_num
  · rw [relDiff]
    exact (div_le_one (abs_pos.mpr hx)).mpr (rtSample_abs_sub_le x)

theorem zipWith_relDiff_rt_bounds (ch : List ℚ) :
    ∀ x ∈ List.zipWith relDiff ch (ch.map rtSample), 0 ≤ x ∧ x ≤ 1 := by
  induction ch with
  | nil => intro x hx; cases hx
  | cons c cs ih =>
    intro x hx
    rw [List.map_cons, List.zipWith_cons_cons] at hx
    rcases List.mem_cons.mp hx with h | h
    · rw [h]; exact relDiff_rtSample_bounds c
    · exact ih x h

theorem roundTrip_ratio_bounds (as : List (List ℚ)) :
    ∀ x ∈ (List.zipWith (List.zipWith relDiff) as
        (as.map (fun ch => ch.map rtSample))).flatten, 0 ≤ x ∧ x ≤ 1 := by
  induction as with
  | nil => intro x hx; cases hx
  | cons a as' ih =>
    intro x hx
    rw [List.map_cons, List.zipWith_cons_cons, List.flatten_cons] at hx
    rcases List.mem_append.mp hx with h | h
    · exact zipWith_relDiff_rt_bounds a x h
    · exact ih x h

theorem median_bounds {l : List ℚ} (h : ∀ x ∈ l, 0 ≤ x ∧ x ≤ 1) :
    0 ≤ median l ∧ median l ≤ 1 := by
  by_cases hl : l = []
  · rw [hl, median_nil]; norm_num
  · exact h _ (median_mem hl)

theorem roundTripBuffer_channels (b : AudioBuffer) :
    (roundTripBuffer b).channels = b.channels := by
  rw [roundTripBuffer, AudioBuffer.channels, AudioBuffer.channels]
  exact List.length_map _ _

theorem roundTripBuffer_frames (b : AudioBuffer) :
    (roundTripBuffer b).frames = b.frames := by
  cases hb : b.samples with
  | nil => rw [AudioBuffer.frames, AudioBuffer.frames, roundTripBuffer, hb]; rfl
  | cons a as =>
    rw [AudioBuffer.frames, AudioBuffer.frames, roundTripBuffer, hb]
    show ((a.map rtSample :: as.map _).headD []).length = ((a :: as).headD []).length
    simp

theorem rtSample_half : rtSample (1/2) = 64/127 := by
  rw [rtSample, muLawQuantize, round_eq]
  norm_num [muLawDequantize]

theorem rtSample_neg_half : rtSample (-(1/2)) = -(63/127) := by
  rw [rtSample, muLawQuantize, round_eq]
  norm_num [muLawDequantize]

theorem repSignal_compare :
    FidelityReport.compare repSignal (roundTripBuffer repSignal) = .ok (1/127) := by
  have hrtb : roundTripBuffer repSignal = ⟨[[64/127, -(63/127), 64/127]], 44100⟩ := by
    rw [roundTripBuffer, repSignal]
    simp only [List.map_cons, List.map_nil, rtSample_half, rtSample_neg_half]
  have h1 : relDiff (1/2) (64/127) = 1/127 := by
    rw [relDiff, ← abs_div]
    norm_num
  have h2 : relDiff (-(1/2)) (-(63/127)) = 1/127 := by
    rw [relDiff, ← abs_div]
    norm_num
  rw [hrtb, repSignal, FidelityReport.compare, if_pos ⟨rfl, rfl⟩]
  simp only [List.zipWith_cons_cons, List.zipWith_nil_left, List.zipWith_nil_right,
    List.flatten_cons, List.flatten_nil, List.append_nil, h1, h2]
  rw [median]
  norm_num [sortSamples, insertSorted, List.getD_cons_succ, List.getD_cons_zero]

/-- CLAIM C1: for every well-formed buffer with samples in [-1, 1], the mu-law
round trip reconstructs a buffer whose fidelity-comparison median is bounded —
it lies in [0, 1] (positions with a zero original contribute ratio 0 in the
rational model of the unguarded division) — and the round trip is approximate,
not exact: on the representative signal `repSignal` the median relative
difference is exactly 1/127, strictly positive (quantization loss) and under
50%, and the reconstruction differs from the original. -/
theorem C1_mulaw_roundtrip_error_bounded_nonzero :
    (∀ b : AudioBuffer, wf b → inRange b →
      ∀ m, FidelityReport.compare b (roundTripBuffer b) = .ok m → 0 ≤ m ∧ m ≤ 1) ∧
    muLawRoundTrip repSignal = .ok (roundTripBuffer repSignal) ∧
    FidelityReport.compare repSignal (roundTripBuffer repSignal) = .ok (1/127) ∧
    (0 : ℚ) < 1/127 ∧ (1 : ℚ)/127 < 1/2 ∧
    roundTripBuffer repSignal ≠ repSignal := by
  refine ⟨?_, muLawRoundTrip_eq repSignal, repSignal_compare, by norm_num, by norm_num, ?_⟩
  · intro b hwf hin m hcmp
    rw [FidelityReport.compare,
      if_pos ⟨(roundTripBuffer_channels b).symm, (roundTripBuffer_frames b).symm⟩] at hcmp
    have hm : m = median ((List.zipWith (List.zipWith relDiff) b.samples
        (b.samples.map (fun ch => ch.map rtSample))).flatten) :=
      (Except.ok.inj hcmp).symm
    rw [hm]
    exact median_bounds (roundTrip_ratio_bounds b.samples)
  · intro hcontra
    have h : (roundTripBuffer repSignal).samples = repSignal.samples :=
      congrArg AudioBuffer.samples hcontra
    have hh : rtSample (1/2) = 1/2 := by
      have := congrArg (fun s => (s.headD []).headD 0) h
      simpa [roundTripBuffer, repSignal] using this
    rw [rtSample_half] at hh
    norm_num at hh

/-- Witness for C1: the universally quantified bound applied at the concrete
representative signal, whose hypotheses hold there. -/
theorem C1_mulaw_roundtrip_error_bounded_nonzero_witness :
    0 ≤ (1 : ℚ)/127 ∧ (1 : ℚ)/127 ≤ 1 := by
  have h := C1_mulaw_roundtrip_error_bounded_nonzero
  refine h.1 repSignal ?_ ?_ (1/127) h.2.2.1
  · intro ch hch
    rw [repSignal] at hch
    simp only [List.mem_singleton] at hch
    rw [hch]
    rfl
  · intro ch hch x hx
    rw [repSignal] at hch
    simp only [List.mem_singleton] at hch
    rw [hch] at hx
    simp only [List.mem_cons, List.not_mem_nil, or_false] at hx
    rcases hx with h1 | h1 | h1 <;> rw [h1] <;> constructor <;> norm_num

/-- CLAIM C8: a buffer whose samples are all exactly zero mu-law encodes and
then decodes back to exactly the all-zero buffer: encoding of 0 is well
defined (code 0) and decodes to 0. -/
theorem C8_mulaw_zero_roundtrip_exact :
    ∀ b : AudioBuffer, (∀ ch ∈ b.samples, ∀ x ∈ ch, x = 0) →
      muLawRoundTrip b = .ok b := by
  intro b hz
  rw [muLawRoundTrip_eq]
  have hsamp : b.samples.map (fun ch => ch.map rtSample) = b.samples := by
    have h : b.samples.map (fun ch => ch.map rtSample) = b.samples.map id := by
      apply List.map_congr_left
      intro ch hch
      have hc : ch.map rtSample = ch.map id := by
        apply List.map_congr_left
        intro x hx
        rw [hz ch hch x hx, rtSample_zero]
        rfl
      rw [hc, List.map_id]
      rfl
    rw [h, List.map_id]
  rw [roundTripBuffer, hsamp]

/-- Witness for C8: the concrete 2×2 all-zero buffer round-trips to itself. -/
theorem C8_mulaw_zero_roundtrip_exact_witness :
    muLawRoundTrip ⟨[[0, 0], [0, 0]], 44100⟩ = .ok ⟨[[0, 0], [0, 0]], 44100⟩ := by
  refine C8_mulaw_zero_roundtrip_exact ⟨[[0, 0], [0, 0]], 44100⟩ ?_
  intro ch hch x hx
  simp only [List.mem_cons, List.not_mem_nil, or_false] at hch
  rcases hch with h | h <;>
    (rw [h] at hx; simp only [List.mem_cons, List.not_mem_nil, or_false] at hx;
      rcases hx with h1 | h1 <;> exact h1)

/-- Modelled from the spec: `torchaudio.transforms.Compose` (source lines
124–129) is external library code; spec §4.3 fixes its contract —
`compose([t1, ..., tn])` runs each stage in order, feeding each stage's output
to the next stage, aborting with the first failing stage's error. -/
def compose : List Transform → Transform
  | [] => fun b => .ok b
  | t :: ts => fun b => (t b).bind (compose ts)

/-- CLAIM C3: the composed pipeline is the left-to-right sequential
composition — the empty pipeline is the identity, a singleton pipeline is its
stage, splitting a pipeline corresponds to monadic sequencing of its parts
(so `compose [t1, ..., tn] b = tn(...t2(t1(b))...)` stage by stage), and once
a prefix fails with an error, the whole pipeline fails with exactly that
error: later stages are neither run, retried nor skipped into. -/
theorem C3_compose_sequential_first_error :
    (∀ b : AudioBuffer, compose [] b = .ok b) ∧
    (∀ (t : Transform) (b : AudioBuffer), compose [t] b = t b) ∧
    (∀ (ts us : List Transform) (b : AudioBuffer),
      compose (ts ++ us) b = (compose ts b).bind (compose us)) ∧
    (∀ (ts us : List Transform) (b : AudioBuffer) (e : Err),
      compose ts b = .error e → compose (ts ++ us) b = .error e) := by
  have happ : ∀ (ts us : List Transform) (b : AudioBuffer),
      compose (ts ++ us) b = (compose ts b).bind (compose us) := by
    intro ts
    induction ts with
    | nil => intro us b; rfl
    | cons t ts' ih =>
      intro us b
      show (t b).bind (compose (ts' ++ us)) = ((t b).bind (compose ts')).bind (compose us)
      cases t b with
      | error e => rfl
      | ok a => exact ih us a
  refine ⟨fun b => rfl, ?_, happ, ?_⟩
  · intro t b
    show (t b).bind (compose []) = t b
    cases t b with
    | error e => rfl
    | ok a => rfl
  · intro ts us b e he
    rw [happ, he]
    rfl

/-- Witness for C3: a pipeline whose first stage fails with `DecodeError`
propagates exactly that error past a subsequent mu-law stage. -/
theorem C3_compose_sequential_first_error_witness :
    compose ([fun _ => .error .DecodeError] ++ [MuLawEncoding]) ⟨[[0]], 1⟩ =
      .error .DecodeError :=
  C3_compose_sequential_first_error.2.2.2
    [fun _ => .error .DecodeError] [MuLawEncoding] ⟨[[0]], 1⟩ .DecodeError rfl

/-- Pointwise sum across the channel axis. -/
def sumChannels : List (List ℚ) → List ℚ
  | [] => []
  | [c] => c
  | c :: c2 :: cs => List.zipWith (· + ·) c (sumChannels (c2 :: cs))

/-- Modelled from the spec: `DownmixMono` (source line 126) is external
library code; spec §4.2 fixes that it averages across the channel axis and
produces a single-channel buffer of the same frame count.  A buffer with no
channel axis cannot satisfy the transform's expectations, so the model fails
with `ConfigMismatchError` there. -/
def DownmixMono : Transform := fun b =>
  if b.samples = [] then .error .ConfigMismatchError
  else .ok { samples := [(sumChannels b.samples).map (fun x => x / (b.samples.length : ℚ))],
             sample_rate := b.sample_rate }

theorem sumChannels_length {F : ℕ} :
    ∀ {chs : List (List ℚ)}, chs ≠ [] → (∀ c ∈ chs, c.length = F) →
      (sumChannels chs).length = F := by
  intro chs
  induction chs with
  | nil => intro h; exact absurd rfl h
  | cons c cs ih =>
    intro _ hall
    cases cs with
    | nil => exact hall c (List.mem_cons_self c [])
    | cons c2 cs' =>
      show (List.zipWith (· + ·) c (sumChannels (c2 :: cs'))).length = F
      rw [List.length_zipWith,
        ih (by simp) (fun x hx => hall x (List.mem_cons_of_mem c hx)),
        hall c (List.mem_cons_self _ _), min_self]

theorem sumChannels_getD {F : ℕ} :
    ∀ {chs : List (List ℚ)}, chs ≠ [] → (∀ c ∈ chs, c.length = F) →
      ∀ i, i < F →
        (sumChannels chs).getD i 0 = (chs.map (fun c => c.getD i 0)).sum := by
  intro chs
  induction chs with
  | nil => intro h; exact absurd rfl h
  | cons c cs ih =>
    intro _ hall i hi
    cases cs with
    | nil =>
      show c.getD i 0 = (List.map (fun c => c.getD i 0) [c]).sum
      simp
    | cons c2 cs' =>
      have hlen1 : c.length = F := hall c (List.mem_cons_self _ _)
      have hlen2 : (sumChannels (c2 :: cs')).length = F :=
        sumChannels_length (by simp) (fun x hx => hall x (List.mem_cons_of_mem c hx))
      have hi1 : i < c.length := lt_of_lt_of_le hi hlen1.ge
      have hi2 : i < (sumChannels (c2 :: cs')).length := lt_of_lt_of_le hi hlen2.ge
      have hzip : i < (List.zipWith (· + ·) c (sumChannels (c2 :: cs'))).length := by
        rw [List.length_zipWith, hlen1, hlen2, min_self]
        exact hi
      show (List.zipWith (· + ·) c (sumChannels (c2 :: cs'))).getD i 0 = _
      rw [List.getD_eq_getElem _ _ hzip, List.getElem_zipWith, List.map_cons,
        List.sum_cons, ← List.getD_eq_getElem c 0 hi1,
        ← List.getD_eq_getElem (sumChannels (c2 :: cs')) 0 hi2,
        ih (by simp) (fun x hx => hall x (List.mem_cons_of_mem c hx)) i hi]

/-- CLAIM C6: `DownmixMono` on every well-formed buffer with at least one
channel yields a single-channel buffer with the same frame count and sample
rate, whose channel is the pointwise average of the input channels. -/
theorem C6_downmix_mono_average :
    ∀ b : AudioBuffer, wf b → 1 ≤ b.channels →
      ∃ b2, DownmixMono b = .ok b2 ∧ b2.channels = 1 ∧ b2.frames = b.frames ∧
        b2.sample_rate = b.sample_rate ∧
        ∀ i, i < b.frames →
          (b2.samples.headD []).getD i 0 =
            (b.samples.map (fun c => c.getD i 0)).sum / (b.channels : ℚ) := by
  intro b hwf hch
  have hne : b.samples ≠ [] := by
    intro h
    rw [AudioBuffer.channels, h] at hch
    simp at hch
  have hok : DownmixMono b =
      .ok { samples := [(sumChannels b.samples).map (fun x => x / (b.samples.length : ℚ))],
            sample_rate := b.sample_rate } := by
    rw [DownmixMono, if_neg hne]
  refine ⟨_, hok, rfl, ?_, rfl, ?_⟩
  · show ((sumChannels b.samples).map (fun x => x / (b.samples.length : ℚ))).length = b.frames
    rw [List.length_map]
    exact sumChannels_length hne hwf
  · intro i hi
    have hslen : (sumChannels b.samples).length = b.frames := sumChannels_length hne hwf
    have hi1 : i < (sumChannels b.samples).length := lt_of_lt_of_le hi hslen.ge
    have him : i < ((sumChannels b.samples).map (fun x => x / (b.samples.length : ℚ))).length := by
      rw [List.length_map]
      exact hi1
    show ((sumChannels b.samples).map (fun x => x / (b.samples.length : ℚ))).getD i 0 = _
    rw [List.getD_eq_getElem _ _ him, List.getElem_map,
      ← List.getD_eq_getElem (sumChannels b.samples) 0 hi1, sumChannels_getD hne hwf i hi]
    rfl

/-- Witness for C6: averaging the concrete 2×2 buffer `[[1,3],[3,5]]`. -/
theorem C6_downmix_mono_average_witness :
    ∃ b2, DownmixMono ⟨[[1, 3], [3, 5]], 10⟩ = .ok b2 ∧ b2.channels = 1 ∧
      b2.frames = (⟨[[1, 3], [3, 5]], 10⟩ : AudioBuffer).frames ∧
      b2.sample_rate = (⟨[[1, 3], [3, 5]], 10⟩ : AudioBuffer).sample_rate ∧
      ∀ i, i < (⟨[[1, 3], [3, 5]], 10⟩ : AudioBuffer).frames →
        (b2.samples.headD []).getD i 0 =
          ((⟨[[1, 3], [3, 5]], 10⟩ : AudioBuffer).samples.map (fun c => c.getD i 0)).sum /
            ((⟨[[1, 3], [3, 5]], 10⟩ : AudioBuffer).channels : ℚ) := by
  apply C6_downmix_mono_average
  · intro c hc
    simp only [List.mem_cons, List.not_mem_nil, or_false] at hc
    rcases hc with h | h <;> rw [h] <;> rfl
  · show 1 ≤ 2
    norm_num

/-- Nearest-lower-index channel resampling to a prescribed output length (the
interpolation detail the spec delegates to the numeric library). -/
def resampleChannel (ch : List ℚ) (outLen : ℕ) : List ℚ :=
  (List.range outLen).map (fun i => ch.getD (i * ch.length / outLen) 0)

/-- Modelled from the spec: `Resample` (source lines 107–111) is external
library code; spec §4.2 fixes its contract — the configured source rate must
match the buffer's sample rate, violating this fails with
`ConfigMismatchError`; it operates on a single channel at a time
(multi-channel input must be split or downmixed first, also a configuration
mismatch); on success it changes the sample rate from `source_rate` to
`target_rate` and scales the frame count accordingly, up to rounding. -/
def Resample (source_rate target_rate : ℚ) : Transform := fun b =>
  if b.sample_rate ≠ source_rate then .error .ConfigMismatchError
  else if b.samples.length ≠ 1 then .error .ConfigMismatchError
  else
    .ok { samples := [resampleChannel (b.samples.headD [])
            ((round ((b.frames : ℚ) * target_rate / source_rate)).toNat)],
          sample_rate := target_rate }

/-- CLAIM C7: applying a `Resample` whose configured source rate differs from
the buffer's actual sample rate fails with `ConfigMismatchError`, and
`Resample` succeeds exactly when the configured source rate matches the
buffer's sample rate and the buffer is single-channel. -/
theorem C7_resample_rate_mismatch_fails :
    ∀ (source_rate target_rate : ℚ) (b : AudioBuffer),
      (b.sample_rate ≠ source_rate →
        Resample source_rate target_rate b = .error .ConfigMismatchError) ∧
      ((∃ b2, Resample source_rate target_rate b = .ok b2) ↔
        (b.sample_rate = source_rate ∧ b.channels = 1)) := by
  intro sr tr b
  constructor
  · intro h
    rw [Resample, if_pos h]
  · constructor
    · rintro ⟨b2, hb2⟩
      rw [Resample] at hb2
      by_cases h1 : b.sample_rate = sr
      · rw [if_neg (not_not_intro h1)] at hb2
        by_cases h2 : b.samples.length = 1
        · exact ⟨h1, h2⟩
        · rw [if_pos h2] at hb2
          exact Except.noConfusion hb2
      · rw [if_pos h1] at hb2
        exact Except.noConfusion hb2
    · rintro ⟨h1, h2⟩
      have h2' : b.samples.length = 1 := h2
      rw [Resample, if_neg (not_not_intro h1), if_neg (not_not_intro h2')]
      exact ⟨_, rfl⟩

/-- Witness for C7: a 100 Hz buffer fed to `Resample(50, 5)` fails with
`ConfigMismatchError`; fed to `Resample(100, 10)` it succeeds. -/
theorem C7_resample_rate_mismatch_fails_witness :
    Resample 50 5 ⟨[[1, 2]], 100⟩ = .error .ConfigMismatchError ∧
    ∃ b2, Resample 100 10 ⟨[[1, 2]], 100⟩ = .ok b2 :=
  ⟨(C7_resample_rate_mismatch_fails 50 5 ⟨[[1, 2]], 100⟩).1 (by norm_num),
   (C7_resample_rate_mismatch_fails 100 10 ⟨[[1, 2]], 100⟩).2.mpr ⟨rfl, rfl⟩⟩

/-- CLAIM C5: resampling a single-channel buffer of frame count F at rate r
down to rate r/10 yields sample rate r/10 and frame count round(F/10), which
is within 1 frame of F/10; at r = 44100 the output sample rate is 4410. -/
theorem C5_resample_tenth_frame_count :
    ∀ (r : ℚ) (b : AudioBuffer), 0 < r → b.sample_rate = r → b.channels = 1 →
      ∃ b2, Resample r (r/10) b = .ok b2 ∧
        b2.sample_rate = r/10 ∧
        b2.frames = (round ((b.frames : ℚ) / 10)).toNat ∧
        |(b2.frames : ℚ) - (b.frames : ℚ) / 10| ≤ 1 ∧
        (r = 44100 → b2.sample_rate = 4410) := by
  intro r b hr hrate hch
  have harg : (b.frames : ℚ) * (r/10) / r = (b.frames : ℚ) / 10 := by
    field_simp
    ring
  have hok : Resample r (r/10) b =
      .ok { samples := [resampleChannel (b.samples.headD [])
              ((round ((b.frames : ℚ) / 10)).toNat)],
            sample_rate := r/10 } := by
    have hch' : b.samples.length = 1 := hch
    rw [Resample, if_neg (not_not_intro hrate), if_neg (not_not_intro hch'), harg]
  have hfr : (AudioBuffer.mk [resampleChannel (b.samples.headD [])
      ((round ((b.frames : ℚ) / 10)).toNat)] (r/10)).frames =
      (round ((b.frames : ℚ) / 10)).toNat := by
    show (resampleChannel (b.samples.headD []) _).length = _
    rw [resampleChannel, List.length_map, List.length_range]
  refine ⟨_, hok, rfl, hfr, ?_, fun hr44 => by rw [hr44]; norm_num⟩
  rw [hfr]
  have hq : (0:ℚ) ≤ (b.frames : ℚ) / 10 := by positivity
  have hrnn : 0 ≤ round ((b.frames : ℚ) / 10) := by
    rw [round_eq]
    exact Int.floor_nonneg.mpr (by linarith)
  have hcast : (((round ((b.frames : ℚ) / 10)).toNat : ℕ) : ℚ) =
      ((round ((b.frames : ℚ) / 10) : ℤ) : ℚ) := by
    exact_mod_cast congrArg (fun z : ℤ => (z : ℚ)) (Int.toNat_of_nonneg hrnn)
  rw [hcast, abs_sub_comm]
  exact (abs_sub_round ((b.frames : ℚ) / 10)).trans (by norm_num)

/-- Witness for C5: the concrete single-channel 3-frame buffer at 44100 Hz. -/
theorem C5_resample_tenth_frame_count_witness :
    ∃ b2, Resample 44100 (44100/10) ⟨[[1, 2, 3]], 44100⟩ = .ok b2 ∧
      b2.sample_rate = 44100/10 ∧
      b2.frames = (round (((⟨[[1, 2, 3]], 44100⟩ : AudioBuffer).frames : ℚ) / 10)).toNat ∧
      |(b2.frames : ℚ) - ((⟨[[1, 2, 3]], 44100⟩ : AudioBuffer).frames : ℚ) / 10| ≤ 1 ∧
      ((44100 : ℚ) = 44100 → b2.sample_rate = 4410) :=
  C5_resample_tenth_frame_count 44100 ⟨[[1, 2, 3]], 44100⟩ (by norm_num) rfl rfl

/-- Configuration record for the Kaldi-compatible transforms, with exactly the
eight fields the source supplies (source lines 222–231); the spec names the
two duration fields with an `_ms` suffix since their unit is milliseconds.
Every field must be supplied to build a `KaldiConfig`: none has a default. -/
structure KaldiConfig where
  channel : ℤ
  dither : ℚ
  window_type : String
  frame_length : ℚ
  frame_shift : ℚ
  remove_dc_offset : Bool
  round_to_power_of_two : Bool
  sample_frequency : ℚ
deriving Repr, DecidableEq

/-- The parameter set the source builds at lines 218–231: `n_fft = 400.0`,
`frame_length = n_fft / frequency * 1000.0`, `frame_shift = frame_length / 2`,
hanning window, channel 0, no dither, no DC-offset removal, no rounding to a
power of two. -/
def tutorialParams (frequency : ℚ) : KaldiConfig :=
  { channel := 0
    dither := 0
    window_type := "hanning"
    frame_length := 400 / frequency * 1000
    frame_shift := 400 / frequency * 1000 / 2
    remove_dc_offset := false
    round_to_power_of_two := false
    sample_frequency := frequency }

/-- Window size in samples prescribed by a Kaldi configuration. -/
def kaldiWindowSize (cfg : KaldiConfig) : ℕ :=
  (round (cfg.sample_frequency * cfg.frame_length / 1000)).toNat

/-- Frame shift in samples prescribed by a Kaldi configuration. -/
def kaldiShift (cfg : KaldiConfig) : ℕ :=
  (round (cfg.sample_frequency * cfg.frame_shift / 1000)).toNat

/-- Modelled from the spec: framing of the configured channel into windows of
`frame_length` ms every `frame_shift` ms at `sample_frequency` Hz — the shape
skeleton shared by the Kaldi-compatible transforms; the per-window numeric
content is delegated detail. -/
def kaldiFrames (cfg : KaldiConfig) (b : AudioBuffer) : List (List ℚ) :=
  let ch := b.samples.getD cfg.channel.toNat []
  let w := kaldiWindowSize cfg
  let s := kaldiShift cfg
  let n := if w ≤ ch.length ∧ 0 < s then (ch.length - w) / s + 1 else 0
  (List.range n).map (fun i => (List.range w).map (fun j => ch.getD (i * s + j) 0))

/-- Modelled from the spec: `torchaudio.compliance.kaldi.spectrogram` (source
line 233) is external library code; the spec fixes that its output is
determined by the eight-field configuration and the input buffer.  Modelled as
the framing skeleton (per-frame spectra delegated). -/
def kaldi.spectrogram (cfg : KaldiConfig) (b : AudioBuffer) : List (List ℚ) :=
  kaldiFrames cfg b

/-- Modelled from the spec: `torchaudio.compliance.kaldi.fbank` (source line
246), like `kaldi.spectrogram` with the filterbank weighting (delegated)
applied on top of the framing, modelled as per-sample energy. -/
def kaldi.fbank (cfg : KaldiConfig) (b : AudioBuffer) : List (List ℚ) :=
  (kaldiFrames cfg b).map (fun fr => fr.map (fun x => x * x))

/-- CLAIM C4: the Kaldi-compatible transforms are configured by exactly the
set {channel, dither, window_type, frame_length (ms), frame_shift (ms),
remove_dc_offset, round_to_power_of_two, sample_frequency}: two
configurations agreeing on these eight fields are one and the same
configuration, and therefore force identical `kaldi.spectrogram` and
`kaldi.fbank` output on every buffer — the sense in which supplying the full
set (no field has a default) reproduces the reference output. -/
theorem C4_kaldi_explicit_config_set :
    ∀ c1 c2 : KaldiConfig,
      c1.channel = c2.channel → c1.dither = c2.dither →
      c1.window_type = c2.window_type → c1.frame_length = c2.frame_length →
      c1.frame_shift = c2.frame_shift → c1.remove_dc_offset = c2.remove_dc_offset →
      c1.round_to_power_of_two = c2.round_to_power_of_two →
      c1.sample_frequency = c2.sample_frequency →
      c1 = c2 ∧ ∀ b : AudioBuffer,
        kaldi.spectrogram c1 b = kaldi.spectrogram c2 b ∧
        kaldi.fbank c1 b = kaldi.fbank c2 b := by
  intro c1 c2 h1 h2 h3 h4 h5 h6 h7 h8
  obtain ⟨f1, f2, f3, f4, f5, f6, f7, f8⟩ := c1
  obtain ⟨g1, g2, g3, g4, g5, g6, g7, g8⟩ := c2
  cases h1; cases h2; cases h3; cases h4; cases h5; cases h6; cases h7; cases h8
  exact ⟨rfl, fun b => ⟨rfl, rfl⟩⟩

/-- Witness for C4: the source's own parameter set at 44100 Hz, compared with
itself field by field. -/
theorem C4_kaldi_explicit_config_set_witness :
    tutorialParams 44100 = tutorialParams 44100 ∧
    ∀ b : AudioBuffer,
      kaldi.spectrogram (tutorialParams 44100) b = kaldi.spectrogram (tutorialParams 44100) b ∧
      kaldi.fbank (tutorialParams 44100) b = kaldi.fbank (tutorialParams 44100) b :=
  C4_kaldi_explicit_config_set (tutorialParams 44100) (tutorialParams 44100)
    rfl rfl rfl rfl rfl rfl rfl rfl

/-- Modelled from the spec: `LC2CL` (ChannelPermute, source lines 125 and 127)
permutes the two axes of the sample data. -/
def LC2CL : Transform := fun b =>
  .ok { b with samples := b.samples.transpose }

/-- Modelled from the spec: `Spectrogram` (source line 83) is delegated DSP;
the spec fixes only that it is a pure transform producing a new buffer, so its
numeric content is modelled as per-sample energy. -/
def Spectrogram : Transform := fun b =>
  .ok { b with samples := b.samples.map (fun ch => ch.map (fun x => x * x)) }

/-- Modelled from the spec: `MelSpectrogram` (source line 95) is delegated
DSP, modelled like `Spectrogram` (the mel weighting is delegated detail). -/
def MelSpectrogram : Transform := fun b =>
  .ok { b with samples := b.samples.map (fun ch => ch.map (fun x => x * x)) }

set_option linter.unusedVariables false in
/-- The tutorial session's straight-line variable flow, translated statement
by statement from source lines 36–192: `waveform` is bound once by the load
(line 36) and never rebound (line 159, `waveform = normalize(waveform)`, is
commented out); `specgram` is bound at line 83 and rebound at line 95;
`transformed` is bound to the first-channel resample (line 111), rebound to
the composed pipeline output (lines 124–129), and rebound to the mu-law
encoding (line 166); `reconstructed` is bound to the decoding of the encoding
(line 178).  The function returns the pair of buffers the comparison at line
192 receives. -/
def tutorialComparisonInputs (w : AudioBuffer) (frequency : ℚ) :
    AudioBuffer × Except Err AudioBuffer :=
  let waveform := w
  let specgram := Spectrogram waveform
  let specgram := MelSpectrogram waveform
  let firstChannel : AudioBuffer :=
    { samples := [waveform.samples.headD []], sample_rate := waveform.sample_rate }
  let transformed := Resample frequency (frequency / 10) firstChannel
  let transformed :=
    compose [LC2CL, DownmixMono, LC2CL, Resample frequency (frequency / 10)] waveform
  let transformed := MuLawEncoding waveform
  let reconstructed := transformed.bind MuLawExpanding
  (waveform, reconstructed)

/-- CLAIM C9: no transform application mutates its input — every transform in
the embedding is a pure function producing a fresh buffer, and in the script's
own flow the buffer compared at line 192 is exactly the buffer the load bound
at line 36, unchanged by the intervening Spectrogram, MelSpectrogram,
Resample, composed-pipeline and MuLawEncoding applications; the reconstruction
it is compared against is exactly the mu-law round trip of that original
buffer. -/
theorem C9_waveform_never_mutated :
    ∀ (w : AudioBuffer) (frequency : ℚ),
      (tutorialComparisonInputs w frequency).1 = w ∧
      (tutorialComparisonInputs w frequency).2 = muLawRoundTrip w ∧
      muLawRoundTrip w = .ok (roundTripBuffer w) := by
  intro w frequency
  exact ⟨rfl, rfl, muLawRoundTrip_eq w⟩

end AudioTutorial
